import Mathlib

/-!
Shallow embedding of the cooperative task scheduler in
`src/packages/scheduler/src/Scheduler.ts` (mini-react), together with models
of the modules it imports whose sources are absent (`SchedulerMinHeap`,
`SchedulerPriorities`, the clock in `shared/utils`), which are modelled from
the specification.

Modelling conventions:
- Time is a `Nat` clock carried in the scheduler state; `getCurrentTime()`
  reads it.  Running a callback advances the clock by the callback's
  duration.
- A JS callback is modelled as a pure computation `Cb` that consumes time
  and either returns a non-function value, returns a continuation callback,
  or throws.  Exceptions are `Except Unit`.
- JS object identity (`===`) on tasks is modelled as equality of the `id`
  field; ids are allocated from a strictly increasing counter.
- The host environment's `setTimeout` / `MessageChannel` effects are
  recorded in the state: `pendingTimeout` is the (at most one) armed host
  timeout, and `messagesPosted` counts invocations of
  `schedulePerformWorkUntilDeadline` (each of which posts one message).
- `executedIds` is ghost instrumentation: it records the ids of tasks whose
  callback was actually invoked by the work loop.  It has no effect on
  control flow.
- The work loop's `while` is embedded with a fuel parameter bounding the
  number of loop iterations; the loop-exit paths (empty queue, yield break,
  continuation return, thrown exception) do not consume fuel.
-/

namespace MiniReact

/-- Priority levels. Modelled from the spec: `SchedulerPriorities.ts` is not
under `src/`; the spec lists five levels ordered most to least urgent. -/
inductive PriorityLevel where
  | immediate
  | userBlocking
  | normal
  | low
  | idle
deriving DecidableEq, Repr

/-- Timeout budgets. Modelled from the spec: "Immediate (~0), UserBlocking
(~250), Normal (~5000), Low (~10000), Idle (effectively unbounded)". -/
def getTimeoutByPriorityLevel : PriorityLevel → Nat
  | .immediate => 0
  | .userBlocking => 250
  | .normal => 5000
  | .low => 10000
  | .idle => 1073741823

/-- Model of a scheduled JS callback: a pure computation that takes
`duration` time units and then returns a non-function value (`done`),
returns a continuation callback (`cont`), or throws (`thrown`). -/
inductive Cb where
  | done (duration : Nat) : Cb
  | thrown (duration : Nat) : Cb
  | cont (duration : Nat) (next : Cb) : Cb
deriving DecidableEq, Repr

/-- The `Task` interface of `Scheduler.ts` (lines 21-28).  The mutable
`callback` slot holds `none` when cleared/cancelled. -/
structure Task where
  id : Nat
  priorityLevel : PriorityLevel
  callback : Option Cb
  startTime : Nat
  expirationTime : Nat
  sortIndex : Nat
deriving DecidableEq, Repr

/-- Heap order. Modelled from the spec: `SchedulerMinHeap.ts` is not under
`src/`; the spec (§4.2) orders entries by `(sortIndex, id)` lexicographic
compare.  `taskLE a b` means `a` comes no later than `b`. -/
def taskLE (a b : Task) : Bool :=
  a.sortIndex < b.sortIndex || (a.sortIndex == b.sortIndex && a.id ≤ b.id)

/-- Min-heap `push`. Modelled from the spec (§4.2): the heap is represented
as a list kept sorted by `(sortIndex, id)`; insertion preserves sortedness
and is observably equivalent to the heap contract (pop/peek return the
minimum, ties broken by ascending id). -/
def push : List Task → Task → List Task
  | [], t => [t]
  | x :: xs, t => if taskLE x t then x :: push xs t else t :: x :: xs

/-- Min-heap `peek`. Modelled from the spec (§4.2): returns the root without
mutation, or nothing if empty. -/
def peek (heap : List Task) : Option Task :=
  heap.head?

/-- Min-heap `pop`. Modelled from the spec (§4.2): removes the root.  (The
source's `pop` also returns the removed root, but `Scheduler.ts` always
discards that return value, so the model returns only the remaining heap.) -/
def pop (heap : List Task) : List Task :=
  heap.tail

/-- Which function a host timeout was armed with: `requestHostTimeout` is
called with `handleTimeout` (Scheduler.ts line 68, line 110) or with
`flushWork` (line 224). -/
inductive HandlerTag where
  | handleTimeout
  | flushWork
deriving DecidableEq, Repr

/-- The module-level mutable state of `Scheduler.ts` (lines 5-19, 31-33),
plus the model's clock, host-effect records, and ghost instrumentation. -/
structure Sched where
  taskIdCounter : Nat
  isHostCallbackScheduled : Bool
  isHostTimeoutScheduled : Bool
  isPerformingWork : Bool
  isMessageLoopRunning : Bool
  /-- whether `scheduledHostCallback` holds a function (only ever
  `flushWork`) rather than being unset. -/
  scheduledHostCallback : Bool
  taskTimeoutId : Int
  /-- model of the host: the at-most-one outstanding `setTimeout`, with the
  handler it will call and the delay it was armed with. -/
  pendingTimeout : Option (HandlerTag × Nat)
  /-- model of the host: how many messages `schedulePerformWorkUntilDeadline`
  has posted on the channel. -/
  messagesPosted : Nat
  /-- the module-level `startTime` (slice start) global of Scheduler.ts. -/
  sliceStart : Nat
  /-- model of the host clock read by `getCurrentTime()`. -/
  clock : Nat
  taskQueue : List Task
  timerQueue : List Task
  /-- ghost: ids of tasks whose callback the work loop has invoked. -/
  executedIds : List Nat
deriving DecidableEq, Repr

/-- Constant `frameInterval = 5` (Scheduler.ts line 19; never reassigned). -/
def frameInterval : Nat := 5

/-- Function `shouldYieldToHost` (lines 231-234): elapsed time since slice start has
reached the slice length.  Nat subtraction truncates at 0, matching the JS
comparison `negative >= 5` being false. -/
def shouldYieldToHost (s : Sched) : Bool :=
  s.clock - s.sliceStart ≥ frameInterval

/-- Function `requestHostTimeout` (lines 87-94): guarded by `isHostTimeoutScheduled`;
when the flag is unset, sets it, arms a `setTimeout` and records its id. -/
def requestHostTimeout (s : Sched) (tag : HandlerTag) (timeout : Nat) : Sched :=
  if s.isHostTimeoutScheduled = false then
    { s with isHostTimeoutScheduled := true
             taskTimeoutId := s.taskTimeoutId + 1
             pendingTimeout := some (tag, timeout) }
  else s

/-- Function `cancelHostTimeout` (lines 95-98): clears the outstanding timeout and
resets the timer id.  It does NOT clear `isHostTimeoutScheduled`. -/
def cancelHostTimeout (s : Sched) : Sched :=
  { s with pendingTimeout := none, taskTimeoutId := -1 }

/-- Function `requestHostCallback` (lines 169-171): records the callback (always
`flushWork`).  It does not post a message and does not touch
`isMessageLoopRunning`. -/
def requestHostCallback (s : Sched) : Sched :=
  { s with scheduledHostCallback := true }

/-- Function `schedulePerformWorkUntilDeadline` (lines 165-167): posts one message on
the channel, which will fire `performWorkUntilDealine` on the next turn. -/
def schedulePerformWorkUntilDeadline (s : Sched) : Sched :=
  { s with messagesPosted := s.messagesPosted + 1 }

/-- The loop of `advanceTimers` (lines 118-132) acting on the two queues:
pop cancelled roots; promote roots whose `startTime` has been reached
(resetting `sortIndex` to `expirationTime`); stop at the first live root
whose `startTime` is still in the future. -/
def advanceTimersAux (currentTime : Nat) (tq : List Task) : List Task → List Task × List Task
  | [] => (tq, [])
  | top :: rest =>
    match top.callback with
    | none => advanceTimersAux currentTime tq rest
    | some _ =>
      if top.startTime ≤ currentTime then
        advanceTimersAux currentTime (push tq { top with sortIndex := top.expirationTime }) rest
      else (tq, top :: rest)

/-- Function `advanceTimers` (lines 118-132) on the scheduler state. -/
def Sched.advanceTimers (s : Sched) (currentTime : Nat) : Sched :=
  let p := advanceTimersAux currentTime s.taskQueue s.timerQueue
  { s with taskQueue := p.1, timerQueue := p.2 }

/-- Function `scheduleCallback` (lines 35-85).  The second component of the result is
what the JS function returns: the source has no `return` statement, so it
returns `undefined`, modelled as `none : Option Task`. -/
def scheduleCallback (s : Sched) (priorityLevel : PriorityLevel) (cb : Cb)
    (delay : Nat) : Sched × Option Task :=
  let currentTime := s.clock
  let startTime := currentTime + delay
  let expirationTime := startTime + getTimeoutByPriorityLevel priorityLevel
  let task : Task :=
    { id := s.taskIdCounter
      priorityLevel := priorityLevel
      callback := some cb
      startTime := startTime
      expirationTime := expirationTime
      sortIndex := 0 }
  let s := { s with taskIdCounter := s.taskIdCounter + 1 }
  if startTime > currentTime then
    -- delayed task: sortIndex := startTime, push into timerQueue
    let task := { task with sortIndex := startTime }
    let s := { s with timerQueue := push s.timerQueue task }
    if peek s.taskQueue = none ∧ (peek s.timerQueue).map Task.id = some task.id then
      let s :=
        if s.isHostTimeoutScheduled = true then cancelHostTimeout s
        else { s with isHostTimeoutScheduled := true }
      (requestHostTimeout s .handleTimeout (startTime - currentTime), none)
    else (s, none)
  else
    -- ready task: sortIndex := expirationTime, push into taskQueue
    let task := { task with sortIndex := expirationTime }
    let s := { s with taskQueue := push s.taskQueue task }
    if !s.isHostCallbackScheduled && !s.isPerformingWork then
      (requestHostCallback { s with isHostCallbackScheduled := true }, none)
    else (s, none)

/-- Function `cancelCallback` (lines 135-137): clears the callback slot of the task
object.  Object identity is modelled by id: the task with this id, wherever
it lives, gets its callback set to `none`. -/
def cancelCallback (s : Sched) (tid : Nat) : Sched :=
  { s with
    taskQueue := s.taskQueue.map fun t =>
      if t.id = tid then { t with callback := none } else t
    timerQueue := s.timerQueue.map fun t =>
      if t.id = tid then { t with callback := none } else t }

/-- Function `handleTimeout` (lines 100-114). -/
def handleTimeout (s : Sched) (currentTime : Nat) : Sched :=
  let s := { s with isHostTimeoutScheduled := false }
  let s := s.advanceTimers currentTime
  if !s.isHostCallbackScheduled then
    if (peek s.taskQueue).isSome then
      requestHostCallback { s with isHostCallbackScheduled := true }
    else
      match peek s.timerQueue with
      | some top => requestHostTimeout s .handleTimeout (top.startTime - currentTime)
      | none => s
  else s

/-- The code after the `while` loop of `workLoop` (lines 219-227) in the
case `currentTask === null`: peek the TASK queue (the source's line 222 —
note, not the timer queue), arm a timeout if a root exists, return false. -/
def workLoopExit (s : Sched) (currentTime : Nat) : Except Unit Bool × Sched :=
  match peek s.taskQueue with
  | some top =>
    (Except.ok false, requestHostTimeout s .flushWork (top.startTime - currentTime))
  | none => (Except.ok false, s)

/-- The `while` loop of `workLoop` (lines 194-227), with `fuel` bounding the
number of iterations.  Exits that correspond to source exits (`break`,
`return true`, exception, loop condition false) do not consume fuel; the
fuel-exhaustion fallback returns `(ok true, s)` and is unreachable whenever
`fuel` exceeds the combined queue length. -/
def workLoopGo (fuel : Nat) (currentTime : Nat) (s : Sched) : Except Unit Bool × Sched :=
  match peek s.taskQueue with
  | none => workLoopExit s currentTime
  | some currentTask =>
    if decide (currentTask.expirationTime > currentTime) && shouldYieldToHost s then
      -- break; then `currentTask !== null` so return true
      (Except.ok true, s)
    else
      match fuel with
      | 0 => (Except.ok true, s)
      | fuel + 1 =>
        match currentTask.callback with
        | none =>
          -- tombstone: pop and continue
          workLoopGo fuel currentTime { s with taskQueue := pop s.taskQueue }
        | some cb =>
          -- currentTask.callback = null (mutates the queue's root object)
          let s := { s with
            taskQueue :=
              match s.taskQueue with
              | [] => []
              | root :: rest => { root with callback := none } :: rest
            executedIds := currentTask.id :: s.executedIds }
          match cb with
          | .thrown d =>
            -- the invoked callback throws after d time units
            (Except.error (), { s with clock := s.clock + d })
          | .done d =>
            let currentTime := s.clock + d
            let s := { s with clock := currentTime }
            let s :=
              if (peek s.taskQueue).map Task.id = some currentTask.id then
                { s with taskQueue := pop s.taskQueue }
              else s
            let s := s.advanceTimers currentTime
            workLoopGo fuel currentTime s
          | .cont d next =>
            let currentTime := s.clock + d
            let s := { s with clock := currentTime }
            let s := { s with
              taskQueue :=
                match s.taskQueue with
                | [] => []
                | root :: rest => { root with callback := some next } :: rest }
            let s := s.advanceTimers currentTime
            (Except.ok true, s)

/-- Function `workLoop` (lines 190-228). -/
def workLoop (fuel : Nat) (hasTimeRemaining : Bool) (initialTime : Nat)
    (s : Sched) : Except Unit Bool × Sched :=
  let _ := hasTimeRemaining
  let currentTime := initialTime
  let s := s.advanceTimers currentTime
  workLoopGo fuel currentTime s

/-- The state mutations `flushWork` performs before delegating to `workLoop`
(lines 175-180). -/
def flushWorkEnter (s : Sched) : Sched :=
  let s := { s with isHostCallbackScheduled := false }
  let s :=
    if s.isHostTimeoutScheduled then
      cancelHostTimeout { s with isHostTimeoutScheduled := false }
    else s
  { s with isPerformingWork := true }

/-- Function `flushWork` (lines 174-187): prologue, then `try workLoop finally
isPerformingWork = false`.  The `finally` runs on both normal return and
exception, and the result (value or exception) propagates unchanged. -/
def flushWork (fuel : Nat) (hasTimeRemaining : Bool) (initialTime : Nat)
    (s : Sched) : Except Unit Bool × Sched :=
  let s := flushWorkEnter s
  let p := workLoop fuel hasTimeRemaining initialTime s
  (p.1, { p.2 with isPerformingWork := false })

/-- Function `performWorkUntilDealine` (lines 141-160): on a message, if a host
callback is recorded, record the slice start, run it (it is always
`flushWork`), and in the `finally`: if there is more work (including the
case where the callback threw, since `hasMoreWork` was initialised `true`),
post the next message; otherwise close the loop and clear the callback. -/
def performWorkUntilDealine (fuel : Nat) (s : Sched) : Except Unit Unit × Sched :=
  if s.scheduledHostCallback then
    let currentTime := s.clock
    let s := { s with sliceStart := currentTime }
    let p := flushWork fuel true currentTime s
    match p.1 with
    | .ok hasMoreWork =>
      if hasMoreWork then (Except.ok (), schedulePerformWorkUntilDeadline p.2)
      else
        (Except.ok (),
          { p.2 with isMessageLoopRunning := false, scheduledHostCallback := false })
    | .error e => (Except.error e, schedulePerformWorkUntilDeadline p.2)
  else (Except.ok (), { s with isMessageLoopRunning := false })

/-- An armed host timeout fires: the `setTimeout` body (line 90-92) calls
the recorded handler with `getCurrentTime()`.  (The handler armed at
line 224 is `flushWork`; modelled as calling it with the current clock.) -/
def fireHostTimeout (fuel : Nat) (s : Sched) : Sched :=
  match s.pendingTimeout with
  | none => s
  | some (tag, _) =>
    let s := { s with pendingTimeout := none }
    match tag with
    | .handleTimeout => handleTimeout s s.clock
    | .flushWork => (flushWork fuel true s.clock s).2

/-- The pristine initial state of the module (lines 5-33). -/
def initSched : Sched :=
  { taskIdCounter := 0
    isHostCallbackScheduled := false
    isHostTimeoutScheduled := false
    isPerformingWork := false
    isMessageLoopRunning := false
    scheduledHostCallback := false
    taskTimeoutId := -1
    pendingTimeout := none
    messagesPosted := 0
    sliceStart := 0
    clock := 0
    taskQueue := []
    timerQueue := []
    executedIds := [] }

/-! Helper lemmas about the heap model. -/

/-- Membership is preserved by `push`. -/
theorem mem_push_of_mem {xs : List Task} {t a : Task} (h : a ∈ xs) : a ∈ push xs t := by
  induction xs with
  | nil => cases h
  | cons x xs ih =>
    simp only [push]
    split
    · rcases List.mem_cons.mp h with h | h
      · exact List.mem_cons.mpr (Or.inl h)
      · exact List.mem_cons.mpr (Or.inr (ih h))
    · exact List.mem_cons.mpr (Or.inr h)

/-- The pushed element is a member of the result. -/
theorem self_mem_push (xs : List Task) (t : Task) : t ∈ push xs t := by
  induction xs with
  | nil => simp [push]
  | cons x xs ih =>
    simp only [push]
    split
    · exact List.mem_cons.mpr (Or.inr ih)
    · exact List.mem_cons_self ..

/-- Every member of `push xs t` is a member of `xs` or is `t`. -/
theorem mem_of_mem_push {xs : List Task} {t a : Task} (h : a ∈ push xs t) :
    a ∈ xs ∨ a = t := by
  induction xs with
  | nil => simpa [push] using h
  | cons x xs ih =>
    simp only [push] at h
    split at h
    · rcases List.mem_cons.mp h with h | h
      · exact Or.inl (List.mem_cons.mpr (Or.inl h))
      · rcases ih h with h | h
        · exact Or.inl (List.mem_cons.mpr (Or.inr h))
        · exact Or.inr h
    · rcases List.mem_cons.mp h with h | h
      · exact Or.inr h
      · exact Or.inl h

/-! Helper lemmas about `advanceTimersAux`. -/

/-- Every member of the ready queue produced by `advanceTimersAux` was
already in the ready queue, or is a promoted timer-queue task whose
`startTime` has been reached (with `sortIndex` reset to `expirationTime`). -/
theorem advanceTimersAux_fst_char (ct : Nat) :
    ∀ (timq tq : List Task) (x : Task), x ∈ (advanceTimersAux ct tq timq).1 →
      x ∈ tq ∨ ∃ y ∈ timq, y.startTime ≤ ct ∧ x = { y with sortIndex := y.expirationTime } := by
  intro timq
  induction timq with
  | nil => intro tq x hx; exact Or.inl hx
  | cons top rest ih =>
    intro tq x hx
    simp only [advanceTimersAux] at hx
    cases hcb : top.callback with
    | none =>
      rw [hcb] at hx
      rcases ih tq x hx with h | ⟨y, hy, hst, hxy⟩
      · exact Or.inl h
      · exact Or.inr ⟨y, List.mem_cons.mpr (Or.inr hy), hst, hxy⟩
    | some cb =>
      rw [hcb] at hx
      by_cases hst : top.startTime ≤ ct
      · rw [if_pos hst] at hx
        rcases ih _ x hx with h | ⟨y, hy, hst2, hxy⟩
        · rcases mem_of_mem_push h with h | h
          · exact Or.inl h
          · rw [← hcb] at h
            exact Or.inr ⟨top, List.mem_cons_self .., hst, h⟩
        · exact Or.inr ⟨y, List.mem_cons.mpr (Or.inr hy), hst2, hxy⟩
      · rw [if_neg hst] at hx
        exact Or.inl hx

/-- Members of the ready queue stay in the ready queue across
`advanceTimersAux`. -/
theorem advanceTimersAux_fst_mem (ct : Nat) :
    ∀ (timq tq : List Task) (x : Task), x ∈ tq → x ∈ (advanceTimersAux ct tq timq).1 := by
  intro timq
  induction timq with
  | nil => intro tq x hx; exact hx
  | cons top rest ih =>
    intro tq x hx
    simp only [advanceTimersAux]
    cases hcb : top.callback with
    | none => exact ih tq x hx
    | some cb =>
      by_cases hst : top.startTime ≤ ct
      · rw [if_pos hst]
        exact ih _ x (mem_push_of_mem hx)
      · rw [if_neg hst]
        exact hx

/-- The timer queue produced by `advanceTimersAux` only contains tasks that
were already in the timer queue. -/
theorem advanceTimersAux_snd_sub (ct : Nat) :
    ∀ (timq tq : List Task) (x : Task), x ∈ (advanceTimersAux ct tq timq).2 → x ∈ timq := by
  intro timq
  induction timq with
  | nil => intro tq x hx; exact absurd hx (by simp [advanceTimersAux])
  | cons top rest ih =>
    intro tq x hx
    simp only [advanceTimersAux] at hx
    cases hcb : top.callback with
    | none =>
      rw [hcb] at hx
      exact List.mem_cons.mpr (Or.inr (ih tq x hx))
    | some cb =>
      rw [hcb] at hx
      by_cases hst : top.startTime ≤ ct
      · rw [if_pos hst] at hx
        exact List.mem_cons.mpr (Or.inr (ih _ x hx))
      · rw [if_neg hst] at hx
        exact hx

/-! Step-description lemmas for `workLoopGo`: one rewrite per source-level
loop outcome. -/

/-- With an empty ready queue the loop exits at once; the after-loop code
peeks the (empty) ready queue and returns false without arming anything. -/
theorem workLoopGo_nil (fuel ct : Nat) (s : Sched) (h : s.taskQueue = []) :
    workLoopGo fuel ct s = (Except.ok false, s) := by
  cases fuel <;> simp [workLoopGo, workLoopExit, peek, h]

/-- Break case: root not yet overdue and the yield check fires. -/
theorem workLoopGo_break (fuel ct : Nat) (s : Sched) (t : Task) (rest : List Task)
    (h : s.taskQueue = t :: rest)
    (hc : (decide (t.expirationTime > ct) && shouldYieldToHost s) = true) :
    workLoopGo fuel ct s = (Except.ok true, s) := by
  cases fuel <;> simp [workLoopGo, peek, h, hc]

/-- Tombstone case: a cancelled root is popped without being executed. -/
theorem workLoopGo_tomb (fuel ct : Nat) (s : Sched) (t : Task) (rest : List Task)
    (h : s.taskQueue = t :: rest)
    (hc : (decide (t.expirationTime > ct) && shouldYieldToHost s) = false)
    (hcb : t.callback = none) :
    workLoopGo (fuel + 1) ct s = workLoopGo fuel ct { s with taskQueue := rest } := by
  conv_lhs => rw [workLoopGo.eq_def]
  simp [peek, pop, h, hc, hcb]

/-- Thrown case: the callback is invoked (consuming its duration) and the
exception propagates; the root's callback slot stays cleared. -/
theorem workLoopGo_thrown (fuel ct : Nat) (s : Sched) (t : Task) (rest : List Task) (d : Nat)
    (h : s.taskQueue = t :: rest)
    (hc : (decide (t.expirationTime > ct) && shouldYieldToHost s) = false)
    (hcb : t.callback = some (.thrown d)) :
    workLoopGo (fuel + 1) ct s =
      (Except.error (),
        { s with taskQueue := { t with callback := none } :: rest
                 executedIds := t.id :: s.executedIds
                 clock := s.clock + d }) := by
  simp [workLoopGo, peek, h, hc, hcb]

/-- Non-continuation case: the callback is invoked, the task (still the
root) is popped, timers are advanced at the refreshed time, and the loop
continues. -/
theorem workLoopGo_done (fuel ct : Nat) (s : Sched) (t : Task) (rest : List Task) (d : Nat)
    (h : s.taskQueue = t :: rest)
    (hc : (decide (t.expirationTime > ct) && shouldYieldToHost s) = false)
    (hcb : t.callback = some (.done d)) :
    workLoopGo (fuel + 1) ct s =
      workLoopGo fuel (s.clock + d)
        (Sched.advanceTimers
          { s with taskQueue := rest
                   executedIds := t.id :: s.executedIds
                   clock := s.clock + d }
          (s.clock + d)) := by
  conv_lhs => rw [workLoopGo.eq_def]
  simp [peek, pop, h, hc, hcb]

/-- Continuation case: the continuation is reinstalled on the same (not
popped) root, timers are advanced at the refreshed time, and the loop
returns true immediately. -/
theorem workLoopGo_cont (fuel ct : Nat) (s : Sched) (t : Task) (rest : List Task)
    (d : Nat) (next : Cb)
    (h : s.taskQueue = t :: rest)
    (hc : (decide (t.expirationTime > ct) && shouldYieldToHost s) = false)
    (hcb : t.callback = some (.cont d next)) :
    workLoopGo (fuel + 1) ct s =
      (Except.ok true,
        Sched.advanceTimers
          { s with taskQueue := { t with callback := some next } :: rest
                   executedIds := t.id :: s.executedIds
                   clock := s.clock + d }
          (s.clock + d)) := by
  simp [workLoopGo, peek, h, hc, hcb]

/-- Fuel-exhaustion fallback (not a source exit; unreachable with enough
fuel). -/
theorem workLoopGo_zero (ct : Nat) (s : Sched) (t : Task) (rest : List Task)
    (h : s.taskQueue = t :: rest)
    (hc : (decide (t.expirationTime > ct) && shouldYieldToHost s) = false) :
    workLoopGo 0 ct s = (Except.ok true, s) := by
  simp [workLoopGo, peek, h, hc]

/-! Invariants used by the temporal claims. -/

/-- Every task in the ready queue has already reached its `startTime`. -/
def InvReady (s : Sched) : Prop :=
  ∀ t ∈ s.taskQueue, t.startTime ≤ s.clock

/-- The task with id `tid` is cancelled: wherever it occurs in either
queue, its callback slot is empty. -/
def CancelledAt (s : Sched) (tid : Nat) : Prop :=
  (∀ t ∈ s.taskQueue, t.id = tid → t.callback = none) ∧
  (∀ t ∈ s.timerQueue, t.id = tid → t.callback = none)

/-- Lemma: `advanceTimers` keeps `InvReady` when run at a time not beyond the
clock (all its call sites pass the current clock). -/
theorem invReady_advanceTimers (s : Sched) (ct : Nat) (h : InvReady s)
    (hct : ct ≤ s.clock) : InvReady (s.advanceTimers ct) := by
  intro x hx
  rcases advanceTimersAux_fst_char ct s.timerQueue s.taskQueue x hx with hx | ⟨y, _, hst, hxy⟩
  · exact h x hx
  · subst hxy
    exact le_trans hst hct

/-- Lemma: `advanceTimers` preserves cancellation of a task. -/
theorem cancelledAt_advanceTimers (s : Sched) (ct : Nat) (tid : Nat)
    (h : CancelledAt s tid) : CancelledAt (s.advanceTimers ct) tid := by
  constructor
  · intro x hx hid
    rcases advanceTimersAux_fst_char ct s.timerQueue s.taskQueue x hx with hx | ⟨y, hy, _, hxy⟩
    · exact h.1 x hx hid
    · subst hxy
      exact h.2 y hy hid
  · intro x hx hid
    exact h.2 x (advanceTimersAux_snd_sub ct s.timerQueue s.taskQueue x hx) hid

/-- Master preservation lemma for the work loop: it never changes the id
counter, never arms or cancels a host timeout, only advances the clock,
keeps `InvReady`, and never resurrects or executes a cancelled task. -/
theorem workLoopGo_pres (fuel : Nat) : ∀ (ct : Nat) (s : Sched),
    (workLoopGo fuel ct s).2.taskIdCounter = s.taskIdCounter ∧
    (workLoopGo fuel ct s).2.pendingTimeout = s.pendingTimeout ∧
    s.clock ≤ (workLoopGo fuel ct s).2.clock ∧
    (InvReady s → InvReady (workLoopGo fuel ct s).2) ∧
    (∀ tid, CancelledAt s tid → tid ∉ s.executedIds →
        CancelledAt (workLoopGo fuel ct s).2 tid ∧
          tid ∉ (workLoopGo fuel ct s).2.executedIds) := by
  induction fuel with
  | zero =>
    intro ct s
    cases htq : s.taskQueue with
    | nil =>
      rw [workLoopGo_nil 0 ct s htq]
      exact ⟨rfl, rfl, le_refl _, fun h => h, fun tid hc he => ⟨hc, he⟩⟩
    | cons t rest =>
      cases hcond : (decide (t.expirationTime > ct) && shouldYieldToHost s) with
      | true =>
        rw [workLoopGo_break 0 ct s t rest htq hcond]
        exact ⟨rfl, rfl, le_refl _, fun h => h, fun tid hc he => ⟨hc, he⟩⟩
      | false =>
        rw [workLoopGo_zero ct s t rest htq hcond]
        exact ⟨rfl, rfl, le_refl _, fun h => h, fun tid hc he => ⟨hc, he⟩⟩
  | succ fuel ih =>
    intro ct s
    cases htq : s.taskQueue with
    | nil =>
      rw [workLoopGo_nil (fuel + 1) ct s htq]
      exact ⟨rfl, rfl, le_refl _, fun h => h, fun tid hc he => ⟨hc, he⟩⟩
    | cons t rest =>
      cases hcond : (decide (t.expirationTime > ct) && shouldYieldToHost s) with
      | true =>
        rw [workLoopGo_break (fuel + 1) ct s t rest htq hcond]
        exact ⟨rfl, rfl, le_refl _, fun h => h, fun tid hc he => ⟨hc, he⟩⟩
      | false =>
        cases hcb : t.callback with
        | none =>
          rw [workLoopGo_tomb fuel ct s t rest htq hcond hcb]
          obtain ⟨h1, h2, h3, h4, h5⟩ := ih ct { s with taskQueue := rest }
          refine ⟨h1, h2, h3, fun hinv => h4 ?_, fun tid hc he => h5 tid ⟨?_, hc.2⟩ he⟩
          · intro x hx
            exact hinv x (by rw [htq]; exact List.mem_cons.mpr (Or.inr hx))
          · intro x hx hid
            exact hc.1 x (by rw [htq]; exact List.mem_cons.mpr (Or.inr hx)) hid
        | some cb =>
          have htmem : t ∈ s.taskQueue := by rw [htq]; exact List.mem_cons_self ..
          cases cb with
          | thrown d =>
            rw [workLoopGo_thrown fuel ct s t rest d htq hcond hcb]
            refine ⟨rfl, rfl, Nat.le_add_right _ _, fun hinv => ?_, fun tid hc he => ?_⟩
            · intro x hx
              rcases List.mem_cons.mp hx with hx | hx
              · subst hx
                exact le_trans (hinv t htmem) (Nat.le_add_right _ _)
              · exact le_trans (hinv x (by rw [htq]; exact List.mem_cons.mpr (Or.inr hx)))
                  (Nat.le_add_right _ _)
            · have hne : t.id ≠ tid := fun hid => by
                have := hc.1 t htmem hid
                rw [hcb] at this
                exact Option.noConfusion this
              refine ⟨⟨?_, hc.2⟩, ?_⟩
              · intro x hx hid
                rcases List.mem_cons.mp hx with hx | hx
                · subst hx; rfl
                · exact hc.1 x (by rw [htq]; exact List.mem_cons.mpr (Or.inr hx)) hid
              · intro hmem
                rcases List.mem_cons.mp hmem with hmem | hmem
                · exact hne hmem.symm
                · exact he hmem
          | done d =>
            rw [workLoopGo_done fuel ct s t rest d htq hcond hcb]
            have hne : ∀ tid, CancelledAt s tid → t.id ≠ tid := fun tid hc hid => by
              have := hc.1 t htmem hid
              rw [hcb] at this
              exact Option.noConfusion this
            obtain ⟨h1, h2, h3, h4, h5⟩ :=
              ih (s.clock + d)
                (Sched.advanceTimers
                  { s with taskQueue := rest
                           executedIds := t.id :: s.executedIds
                           clock := s.clock + d }
                  (s.clock + d))
            refine ⟨h1, h2, le_trans (Nat.le_add_right _ _) h3, fun hinv => h4 ?_,
              fun tid hc he => h5 tid ?_ ?_⟩
            · refine invReady_advanceTimers _ _ ?_ (le_refl _)
              intro x hx
              exact le_trans (hinv x (by rw [htq]; exact List.mem_cons.mpr (Or.inr hx)))
                (Nat.le_add_right _ _)
            · refine cancelledAt_advanceTimers _ _ _ ⟨?_, hc.2⟩
              intro x hx hid
              exact hc.1 x (by rw [htq]; exact List.mem_cons.mpr (Or.inr hx)) hid
            · intro hmem
              rcases List.mem_cons.mp hmem with hmem | hmem
              · exact hne tid hc hmem.symm
              · exact he hmem
          | cont d next =>
            rw [workLoopGo_cont fuel ct s t rest d next htq hcond hcb]
            have hne : ∀ tid, CancelledAt s tid → t.id ≠ tid := fun tid hc hid => by
              have := hc.1 t htmem hid
              rw [hcb] at this
              exact Option.noConfusion this
            refine ⟨rfl, rfl, ?_, fun hinv => ?_, fun tid hc he => ⟨?_, ?_⟩⟩
            · exact le_trans (Nat.le_add_right _ _) (le_refl _)
            · refine invReady_advanceTimers _ _ ?_ (le_refl _)
              intro x hx
              rcases List.mem_cons.mp hx with hx | hx
              · subst hx
                exact le_trans (hinv t htmem) (Nat.le_add_right _ _)
              · exact le_trans (hinv x (by rw [htq]; exact List.mem_cons.mpr (Or.inr hx)))
                  (Nat.le_add_right _ _)
            · refine cancelledAt_advanceTimers _ _ _ ⟨?_, hc.2⟩
              intro x hx hid
              rcases List.mem_cons.mp hx with hx | hx
              · subst hx
                exact absurd hid (hne tid hc)
              · exact hc.1 x (by rw [htq]; exact List.mem_cons.mpr (Or.inr hx)) hid
            · intro hmem
              have : (Sched.advanceTimers
                  { s with taskQueue := { t with callback := some next } :: rest
                           executedIds := t.id :: s.executedIds
                           clock := s.clock + d }
                  (s.clock + d)).executedIds = t.id :: s.executedIds := rfl
              rw [this] at hmem
              rcases List.mem_cons.mp hmem with hmem | hmem
              · exact hne tid hc hmem.symm
              · exact he hmem

/-- Characterization of the state after `scheduleCallback`: the id counter
is bumped; clock and execution log are untouched; a delayed submission
(`delay > 0`) pushes the new task (keyed by `startTime`) into the timer
queue only, and a ready submission (`delay = 0`) pushes it (keyed by
`expirationTime`) into the ready queue only. -/
theorem scheduleCallback_char (s : Sched) (pl : PriorityLevel) (cb : Cb) (dl : Nat) :
    (scheduleCallback s pl cb dl).1.taskIdCounter = s.taskIdCounter + 1 ∧
    (scheduleCallback s pl cb dl).1.clock = s.clock ∧
    (scheduleCallback s pl cb dl).1.executedIds = s.executedIds ∧
    ((0 < dl ∧
      (scheduleCallback s pl cb dl).1.taskQueue = s.taskQueue ∧
      (scheduleCallback s pl cb dl).1.timerQueue =
        push s.timerQueue
          { id := s.taskIdCounter, priorityLevel := pl, callback := some cb
            startTime := s.clock + dl
            expirationTime := s.clock + dl + getTimeoutByPriorityLevel pl
            sortIndex := s.clock + dl }) ∨
     (dl = 0 ∧
      (scheduleCallback s pl cb dl).1.timerQueue = s.timerQueue ∧
      (scheduleCallback s pl cb dl).1.taskQueue =
        push s.taskQueue
          { id := s.taskIdCounter, priorityLevel := pl, callback := some cb
            startTime := s.clock + dl
            expirationTime := s.clock + dl + getTimeoutByPriorityLevel pl
            sortIndex := s.clock + dl + getTimeoutByPriorityLevel pl })) := by
  unfold scheduleCallback requestHostTimeout cancelHostTimeout requestHostCallback
  by_cases hd : 0 < dl
  · have hgt : s.clock + dl > s.clock := by omega
    simp only [hgt, if_true]
    refine ⟨?_, ?_, ?_, Or.inl ⟨by trivial, ?_, ?_⟩⟩ <;> (repeat' split) <;> simp
  · have hd0 : dl = 0 := by omega
    subst hd0
    have hgt : ¬ (s.clock + 0 > s.clock) := by omega
    simp only [hgt, if_false]
    refine ⟨?_, ?_, ?_, Or.inr ⟨by trivial, ?_, ?_⟩⟩ <;> (repeat' split) <;> simp

/-- Lemma: `requestHostTimeout` only touches the timeout bookkeeping fields. -/
theorem requestHostTimeout_fields (s : Sched) (tag : HandlerTag) (d : Nat) :
    (requestHostTimeout s tag d).taskIdCounter = s.taskIdCounter ∧
    (requestHostTimeout s tag d).clock = s.clock ∧
    (requestHostTimeout s tag d).executedIds = s.executedIds ∧
    (requestHostTimeout s tag d).taskQueue = s.taskQueue ∧
    (requestHostTimeout s tag d).timerQueue = s.timerQueue := by
  unfold requestHostTimeout
  split <;> simp

/-- Lemma: `InvReady` transfers along equal ready queue and clock. -/
theorem invReady_of_eq {s s' : Sched} (h : InvReady s)
    (htq : s'.taskQueue = s.taskQueue) (hck : s'.clock = s.clock) : InvReady s' := by
  intro x hx
  rw [htq] at hx
  rw [hck]
  exact h x hx

/-- Lemma: `CancelledAt` transfers along equal queues. -/
theorem cancelledAt_of_eq {s s' : Sched} {tid : Nat} (h : CancelledAt s tid)
    (htq : s'.taskQueue = s.taskQueue) (htmq : s'.timerQueue = s.timerQueue) :
    CancelledAt s' tid := by
  refine ⟨?_, ?_⟩
  · intro x hx
    rw [htq] at hx
    exact h.1 x hx
  · intro x hx
    rw [htmq] at hx
    exact h.2 x hx

/-- Preservation facts for `cancelCallback`: it only clears callback slots,
leaving ids, times, order, clock and the execution log unchanged; in
particular it preserves `InvReady` and any existing cancellation. -/
theorem cancelCallback_pres (s : Sched) (tid : Nat) :
    (cancelCallback s tid).taskIdCounter = s.taskIdCounter ∧
    (cancelCallback s tid).clock = s.clock ∧
    (cancelCallback s tid).executedIds = s.executedIds ∧
    (InvReady s → InvReady (cancelCallback s tid)) ∧
    (∀ tid2, CancelledAt s tid2 → CancelledAt (cancelCallback s tid) tid2) := by
  refine ⟨rfl, rfl, rfl, fun h => ?_, fun tid2 h => ⟨?_, ?_⟩⟩
  · intro x hx
    simp only [cancelCallback, List.mem_map] at hx
    obtain ⟨y, hy, hxy⟩ := hx
    have : x.startTime = y.startTime := by
      subst hxy; split <;> rfl
    rw [this]
    exact h y hy
  · intro x hx hid
    simp only [cancelCallback, List.mem_map] at hx
    obtain ⟨y, hy, hxy⟩ := hx
    have hidy : y.id = x.id := by subst hxy; split <;> rfl
    subst hxy
    split
    · rfl
    · exact h.1 y hy (hidy.trans hid)
  · intro x hx hid
    simp only [cancelCallback, List.mem_map] at hx
    obtain ⟨y, hy, hxy⟩ := hx
    have hidy : y.id = x.id := by subst hxy; split <;> rfl
    subst hxy
    split
    · rfl
    · exact h.2 y hy (hidy.trans hid)

/-- Preservation facts for `handleTimeout` when fired at a time not beyond
the clock. -/
theorem handleTimeout_pres (s : Sched) (ct : Nat) (hct : ct ≤ s.clock) :
    (handleTimeout s ct).taskIdCounter = s.taskIdCounter ∧
    (handleTimeout s ct).clock = s.clock ∧
    (handleTimeout s ct).executedIds = s.executedIds ∧
    (InvReady s → InvReady (handleTimeout s ct)) ∧
    (∀ tid, CancelledAt s tid → CancelledAt (handleTimeout s ct) tid) := by
  have hA :
      (Sched.advanceTimers { s with isHostTimeoutScheduled := false } ct).taskIdCounter
        = s.taskIdCounter ∧
      (Sched.advanceTimers { s with isHostTimeoutScheduled := false } ct).clock = s.clock ∧
      (Sched.advanceTimers { s with isHostTimeoutScheduled := false } ct).executedIds
        = s.executedIds := ⟨rfl, rfl, rfl⟩
  have hAin : InvReady s →
      InvReady (Sched.advanceTimers { s with isHostTimeoutScheduled := false } ct) := by
    intro h
    exact invReady_advanceTimers _ ct (fun x hx => h x hx) hct
  have hAca : ∀ tid, CancelledAt s tid →
      CancelledAt (Sched.advanceTimers { s with isHostTimeoutScheduled := false } ct) tid := by
    intro tid h
    exact cancelledAt_advanceTimers _ ct tid ⟨h.1, h.2⟩
  unfold handleTimeout requestHostCallback
  dsimp only
  refine ⟨?_, ?_, ?_, fun h => ?_, fun tid h => ?_⟩ <;> (repeat' split)
  all_goals
    first
    | exact hA.1
    | exact hA.2.1
    | exact hA.2.2
    | (exact (requestHostTimeout_fields _ _ _).1.trans hA.1)
    | (exact (requestHostTimeout_fields _ _ _).2.1.trans hA.2.1)
    | (exact (requestHostTimeout_fields _ _ _).2.2.1.trans hA.2.2)
    | exact invReady_of_eq (hAin h) rfl rfl
    | exact invReady_of_eq (hAin h) (requestHostTimeout_fields _ _ _).2.2.2.1
        (requestHostTimeout_fields _ _ _).2.1
    | exact hAin h
    | exact cancelledAt_of_eq (hAca tid h) rfl rfl

/-- Lemma: `flushWorkEnter` only touches flags and the timeout bookkeeping. -/
theorem flushWorkEnter_fields (s : Sched) :
    (flushWorkEnter s).taskIdCounter = s.taskIdCounter ∧
    (flushWorkEnter s).clock = s.clock ∧
    (flushWorkEnter s).executedIds = s.executedIds ∧
    (flushWorkEnter s).taskQueue = s.taskQueue ∧
    (flushWorkEnter s).timerQueue = s.timerQueue := by
  unfold flushWorkEnter cancelHostTimeout
  dsimp only
  split <;> simp

/-- Preservation facts for `flushWork` when entered at a time not beyond
the clock. -/
theorem flushWork_pres (fuel : Nat) (htr : Bool) (it : Nat) (s : Sched) (hit : it ≤ s.clock) :
    (flushWork fuel htr it s).2.taskIdCounter = s.taskIdCounter ∧
    s.clock ≤ (flushWork fuel htr it s).2.clock ∧
    (InvReady s → InvReady (flushWork fuel htr it s).2) ∧
    (∀ tid, CancelledAt s tid → tid ∉ s.executedIds →
        CancelledAt (flushWork fuel htr it s).2 tid ∧
          tid ∉ (flushWork fuel htr it s).2.executedIds) := by
  have hE := flushWorkEnter_fields s
  set s1 := flushWorkEnter s with hs1
  set s2 := s1.advanceTimers it with hs2
  have hs2fields : s2.taskIdCounter = s.taskIdCounter ∧ s2.clock = s.clock ∧
      s2.executedIds = s.executedIds :=
    ⟨hE.1, hE.2.1, hE.2.2.1⟩
  have hW := workLoopGo_pres fuel it s2
  have hfw : flushWork fuel htr it s =
      ((workLoopGo fuel it s2).1,
        { (workLoopGo fuel it s2).2 with isPerformingWork := false }) := rfl
  refine ⟨?_, ?_, fun h => ?_, fun tid hc he => ?_⟩
  · rw [hfw]
    exact hW.1.trans hs2fields.1
  · rw [hfw]
    calc s.clock = s2.clock := hs2fields.2.1.symm
    _ ≤ (workLoopGo fuel it s2).2.clock := hW.2.2.1
    _ = _ := rfl
  · rw [hfw]
    have h2 : InvReady s2 := by
      refine invReady_advanceTimers s1 it ?_ (by rw [hE.2.1]; exact hit)
      exact invReady_of_eq h hE.2.2.2.1 hE.2.1
    exact invReady_of_eq (hW.2.2.2.1 h2) rfl rfl
  · rw [hfw]
    have h2 : CancelledAt s2 tid := by
      refine cancelledAt_advanceTimers s1 it tid ?_
      exact cancelledAt_of_eq hc hE.2.2.2.1 hE.2.2.2.2
    have he2 : tid ∉ s2.executedIds := by rw [hs2fields.2.2]; exact he
    obtain ⟨hca, hexe⟩ := hW.2.2.2.2 tid h2 he2
    exact ⟨cancelledAt_of_eq hca rfl rfl, hexe⟩

/-- Preservation facts for `performWorkUntilDealine`. -/
theorem performWork_pres (fuel : Nat) (s : Sched) :
    (performWorkUntilDealine fuel s).2.taskIdCounter = s.taskIdCounter ∧
    s.clock ≤ (performWorkUntilDealine fuel s).2.clock ∧
    (InvReady s → InvReady (performWorkUntilDealine fuel s).2) ∧
    (∀ tid, CancelledAt s tid → tid ∉ s.executedIds →
        CancelledAt (performWorkUntilDealine fuel s).2 tid ∧
          tid ∉ (performWorkUntilDealine fuel s).2.executedIds) := by
  by_cases hcb : s.scheduledHostCallback
  · have hF := flushWork_pres fuel true s.clock { s with sliceStart := s.clock } (le_refl _)
    set sf := flushWork fuel true s.clock { s with sliceStart := s.clock } with hsf
    have hPW : (performWorkUntilDealine fuel s).2 =
        match sf.1 with
        | .ok hasMoreWork =>
          if hasMoreWork then schedulePerformWorkUntilDeadline sf.2
          else { sf.2 with isMessageLoopRunning := false, scheduledHostCallback := false }
        | .error _ => schedulePerformWorkUntilDeadline sf.2 := by
      unfold performWorkUntilDealine
      rw [if_pos hcb]
      match h : sf.1 with
      | .ok true => simp [← hsf, h]
      | .ok false => simp [← hsf, h]
      | .error e => simp [← hsf, h]
    have hfin : ∀ g : Sched,
        (g = schedulePerformWorkUntilDeadline sf.2 ∨
         g = { sf.2 with isMessageLoopRunning := false, scheduledHostCallback := false }) →
        g.taskIdCounter = s.taskIdCounter ∧ s.clock ≤ g.clock ∧
        (InvReady s → InvReady g) ∧
        (∀ tid, CancelledAt s tid → tid ∉ s.executedIds →
            CancelledAt g tid ∧ tid ∉ g.executedIds) := by
      intro g hg
      have hgf : g.taskIdCounter = sf.2.taskIdCounter ∧ g.clock = sf.2.clock ∧
          g.executedIds = sf.2.executedIds ∧ g.taskQueue = sf.2.taskQueue ∧
          g.timerQueue = sf.2.timerQueue := by
        rcases hg with hg | hg <;> (subst hg; exact ⟨rfl, rfl, rfl, rfl, rfl⟩)
      refine ⟨hgf.1.trans hF.1, le_trans hF.2.1 (le_of_eq hgf.2.1.symm), fun h => ?_,
        fun tid hc he => ?_⟩
      · exact invReady_of_eq (hF.2.2.1 (invReady_of_eq h rfl rfl)) hgf.2.2.2.1 hgf.2.1
      · have := hF.2.2.2 tid (cancelledAt_of_eq hc rfl rfl) he
        refine ⟨cancelledAt_of_eq this.1 hgf.2.2.2.1 hgf.2.2.2.2, ?_⟩
        rw [hgf.2.2.1]
        exact this.2
    rw [hPW]
    match h : sf.1 with
    | .ok true => exact hfin _ (Or.inl rfl)
    | .ok false => exact hfin _ (Or.inr rfl)
    | .error e => exact hfin _ (Or.inl rfl)
  · have hPW : (performWorkUntilDealine fuel s).2 =
        { s with isMessageLoopRunning := false } := by
      unfold performWorkUntilDealine
      rw [if_neg hcb]
    rw [hPW]
    exact ⟨rfl, le_refl _, fun h => invReady_of_eq h rfl rfl,
      fun tid hc he => ⟨cancelledAt_of_eq hc rfl rfl, he⟩⟩

/-- Preservation facts for a host timeout firing. -/
theorem fireHostTimeout_pres (fuel : Nat) (s : Sched) :
    (fireHostTimeout fuel s).taskIdCounter = s.taskIdCounter ∧
    s.clock ≤ (fireHostTimeout fuel s).clock ∧
    (InvReady s → InvReady (fireHostTimeout fuel s)) ∧
    (∀ tid, CancelledAt s tid → tid ∉ s.executedIds →
        CancelledAt (fireHostTimeout fuel s) tid ∧
          tid ∉ (fireHostTimeout fuel s).executedIds) := by
  match hpt : s.pendingTimeout with
  | none =>
    have hid : fireHostTimeout fuel s = s := by unfold fireHostTimeout; rw [hpt]
    rw [hid]
    exact ⟨rfl, le_refl _, fun h => h, fun tid hc he => ⟨hc, he⟩⟩
  | some (tag, d) =>
    match tag with
    | .handleTimeout =>
      have hid : fireHostTimeout fuel s =
          handleTimeout { s with pendingTimeout := none } s.clock := by
        unfold fireHostTimeout
        rw [hpt]
      rw [hid]
      have hH := handleTimeout_pres { s with pendingTimeout := none } s.clock (le_refl _)
      exact ⟨hH.1, le_of_eq hH.2.1.symm,
        fun h => hH.2.2.2.1 (invReady_of_eq h rfl rfl),
        fun tid hc he => ⟨hH.2.2.2.2 tid (cancelledAt_of_eq hc rfl rfl), by
          rw [hH.2.2.1]; exact he⟩⟩
    | .flushWork =>
      have hid : fireHostTimeout fuel s =
          (flushWork fuel true s.clock { s with pendingTimeout := none }).2 := by
        unfold fireHostTimeout
        rw [hpt]
      rw [hid]
      have hH := flushWork_pres fuel true s.clock { s with pendingTimeout := none } (le_refl _)
      exact ⟨hH.1, hH.2.1, fun h => hH.2.2.1 (invReady_of_eq h rfl rfl),
        fun tid hc he => hH.2.2.2 tid (cancelledAt_of_eq hc rfl rfl) he⟩

/-! System step relation: the ways the outside world can drive the
scheduler.  Callbacks are modelled as pure time-consuming computations (a
callback does not itself call back into the scheduler). -/

/-- One external event: a caller invokes `scheduleCallback` or
`cancelCallback`; time passes; the armed host timeout fires; or a posted
channel message fires `performWorkUntilDealine`. -/
inductive Step : Sched → Sched → Prop where
  | schedule (s : Sched) (pl : PriorityLevel) (cb : Cb) (dl : Nat) :
      Step s (scheduleCallback s pl cb dl).1
  | cancel (s : Sched) (tid : Nat) : Step s (cancelCallback s tid)
  | tick (s : Sched) (d : Nat) : Step s { s with clock := s.clock + d }
  | fireTimeout (s : Sched) (fuel : Nat) : Step s (fireHostTimeout fuel s)
  | fireMessage (s : Sched) (fuel : Nat) : Step s (performWorkUntilDealine fuel s).2

/-- Finitely many external events. -/
inductive Steps : Sched → Sched → Prop where
  | refl (s : Sched) : Steps s s
  | tail {s u s' : Sched} : Steps s u → Step u s' → Steps s s'

/-- One step preserves the ready-queue invariant, the id-counter bound, and
cancellation (together with non-execution) of any already-allocated task. -/
theorem step_pres {s s' : Sched} (h : Step s s') :
    s.taskIdCounter ≤ s'.taskIdCounter ∧
    (InvReady s → InvReady s') ∧
    (∀ tid, tid < s.taskIdCounter → CancelledAt s tid → tid ∉ s.executedIds →
        CancelledAt s' tid ∧ tid ∉ s'.executedIds) := by
  cases h with
  | schedule pl cb dl =>
    obtain ⟨h1, h2, h3, h4⟩ := scheduleCallback_char s pl cb dl
    refine ⟨by omega, fun hinv => ?_, fun tid htid hc he => ?_⟩
    · intro x hx
      rcases h4 with ⟨hdl, htq, htmq⟩ | ⟨hdl, htmq, htq⟩
      · rw [htq] at hx
        rw [h2]
        exact hinv x hx
      · rw [htq] at hx
        rw [h2]
        rcases mem_of_mem_push hx with hx | hx
        · exact hinv x hx
        · subst hx
          simp [hdl]
    · refine ⟨⟨?_, ?_⟩, by rw [h3]; exact he⟩
      · intro x hx hid
        rcases h4 with ⟨hdl, htq, htmq⟩ | ⟨hdl, htmq, htq⟩
        · rw [htq] at hx
          exact hc.1 x hx hid
        · rw [htq] at hx
          rcases mem_of_mem_push hx with hx | hx
          · exact hc.1 x hx hid
          · subst hx
            exact absurd hid (by simp; omega)
      · intro x hx hid
        rcases h4 with ⟨hdl, htq, htmq⟩ | ⟨hdl, htmq, htq⟩
        · rw [htmq] at hx
          rcases mem_of_mem_push hx with hx | hx
          · exact hc.2 x hx hid
          · subst hx
            exact absurd hid (by simp; omega)
        · rw [htmq] at hx
          exact hc.2 x hx hid
  | cancel tid2 =>
    obtain ⟨h1, h2, h3, h4, h5⟩ := cancelCallback_pres s tid2
    exact ⟨le_of_eq h1.symm, h4, fun tid htid hc he => ⟨h5 tid hc, by rw [h3]; exact he⟩⟩
  | tick d =>
    exact ⟨le_refl _, fun hinv x hx => le_trans (hinv x hx) (Nat.le_add_right _ _),
      fun tid htid hc he => ⟨⟨hc.1, hc.2⟩, he⟩⟩
  | fireTimeout fuel =>
    obtain ⟨h1, h2, h3, h4⟩ := fireHostTimeout_pres fuel s
    exact ⟨le_of_eq h1.symm, h3, fun tid htid hc he => h4 tid hc he⟩
  | fireMessage fuel =>
    obtain ⟨h1, h2, h3, h4⟩ := performWork_pres fuel s
    exact ⟨le_of_eq h1.symm, h3, fun tid htid hc he => h4 tid hc he⟩

/-- Multi-step closure of `step_pres`. -/
theorem steps_pres {s s' : Sched} (h : Steps s s') :
    s.taskIdCounter ≤ s'.taskIdCounter ∧
    (InvReady s → InvReady s') ∧
    (∀ tid, tid < s.taskIdCounter → CancelledAt s tid → tid ∉ s.executedIds →
        CancelledAt s' tid ∧ tid ∉ s'.executedIds) := by
  induction h with
  | refl => exact ⟨le_refl _, fun h => h, fun tid htid hc he => ⟨hc, he⟩⟩
  | tail hsteps hstep ih =>
    obtain ⟨i1, i2, i3⟩ := ih
    obtain ⟨j1, j2, j3⟩ := step_pres hstep
    exact ⟨le_trans i1 j1, fun h => j2 (i2 h),
      fun tid htid hc he =>
        have := i3 tid htid hc he
        j3 tid (lt_of_lt_of_le htid i1) this.1 this.2⟩

/-! Claim theorems. -/

/-- C1: contrary to the claim, a call to `scheduleCallback` with a ready
task from an idle scheduler records `flushWork` as the scheduled host
callback but never invokes `schedulePerformWorkUntilDeadline`: no message
is posted and the message loop is never started, so `performWorkUntilDealine`
will not fire.  (`requestHostCallback` merely stores the callback.) -/
theorem scheduleCallback_never_requests_turn :
    (∀ (s : Sched) (pl : PriorityLevel) (cb : Cb) (dl : Nat),
        (scheduleCallback s pl cb dl).1.messagesPosted = s.messagesPosted ∧
        (scheduleCallback s pl cb dl).1.isMessageLoopRunning = s.isMessageLoopRunning) ∧
    initSched.isHostCallbackScheduled = false ∧
    initSched.isPerformingWork = false ∧
    (scheduleCallback initSched .normal (.done 1) 0).1.scheduledHostCallback = true ∧
    (scheduleCallback initSched .normal (.done 1) 0).1.messagesPosted = 0 ∧
    (scheduleCallback initSched .normal (.done 1) 0).1.isMessageLoopRunning = false := by
  refine ⟨fun s pl cb dl => ?_, rfl, rfl, by decide, by decide, by decide⟩
  unfold scheduleCallback requestHostTimeout cancelHostTimeout requestHostCallback
  dsimp only
  constructor <;> (repeat' split) <;> rfl

/-- C2: contrary to the claim, a delayed submission never arms a host
timeout: `scheduleCallback` either leaves the pending timeout untouched or
(when one was armed) cancels it and arms nothing, because it sets
`isHostTimeoutScheduled` before calling `requestHostTimeout`, whose guard
then makes the call a no-op.  Shown in general and on the two concrete
scenarios (no timeout armed / a timeout already armed). -/
theorem scheduleCallback_never_arms_host_timeout :
    (∀ (s : Sched) (pl : PriorityLevel) (cb : Cb) (dl : Nat),
        (scheduleCallback s pl cb dl).1.pendingTimeout = s.pendingTimeout ∨
        (scheduleCallback s pl cb dl).1.pendingTimeout = none) ∧
    (scheduleCallback initSched .normal (.done 1) 10).1.pendingTimeout = none ∧
    (scheduleCallback initSched .normal (.done 1) 10).1.isHostTimeoutScheduled = true ∧
    (scheduleCallback
        { (scheduleCallback initSched .normal (.done 1) 10).1 with
          pendingTimeout := some (.handleTimeout, 10) }
        .normal (.done 1) 5).1.pendingTimeout = none := by
  refine ⟨fun s pl cb dl => ?_, by decide, by decide, by decide⟩
  unfold scheduleCallback requestHostTimeout cancelHostTimeout requestHostCallback
  dsimp only
  (repeat' split) <;>
    first
    | exact Or.inl rfl
    | exact Or.inr rfl
    | (exfalso; simp_all)

/-- C3: contrary to the claim, when the work loop exits with the ready
queue empty it never arms a host timeout, even when the delayed queue is
non-empty: line 222 of the source peeks the (empty) ready queue instead of
the timer queue.  In general the work loop never changes the pending
timeout; on the concrete input (empty ready queue, one waiting timer with
99 time units of delay remaining) it returns false and arms nothing; with
both queues empty it also returns false and arms nothing. -/
theorem workLoop_exit_never_arms_timeout :
    (∀ (fuel ct : Nat) (s : Sched),
        (workLoopGo fuel ct s).2.pendingTimeout = s.pendingTimeout) ∧
    ((workLoop 10 true 1
        { initSched with clock := 1
                         timerQueue :=
                           [{ id := 0, priorityLevel := .normal, callback := some (.done 1)
                              startTime := 100, expirationTime := 5100,
                              sortIndex := 100 }] }).1 = Except.ok false ∧
     (workLoop 10 true 1
        { initSched with clock := 1
                         timerQueue :=
                           [{ id := 0, priorityLevel := .normal, callback := some (.done 1)
                              startTime := 100, expirationTime := 5100,
                              sortIndex := 100 }] }).2.pendingTimeout = none ∧
     (workLoop 10 true 1
        { initSched with clock := 1
                         timerQueue :=
                           [{ id := 0, priorityLevel := .normal, callback := some (.done 1)
                              startTime := 100, expirationTime := 5100,
                              sortIndex := 100 }] }).2.timerQueue ≠ []) ∧
    ((workLoop 10 true 0 initSched).1 = Except.ok false ∧
     (workLoop 10 true 0 initSched).2.pendingTimeout = none) := by
  refine ⟨fun fuel ct s => (workLoopGo_pres fuel ct s).2.1, ⟨by rfl, by rfl, by decide⟩,
    by rfl, by rfl⟩

/-- C4: contrary to the claim, `scheduleCallback` has no return statement:
it returns `undefined` (modelled as `none`), never the created task, so the
caller gets no handle to pass to `cancelCallback`. -/
theorem scheduleCallback_returns_no_handle (s : Sched) (pl : PriorityLevel)
    (cb : Cb) (dl : Nat) : (scheduleCallback s pl cb dl).2 = none := by
  unfold scheduleCallback requestHostTimeout cancelHostTimeout requestHostCallback
  dsimp only
  (repeat' split) <;> rfl

/-- C10: `flushWork` sets the performing-work flag before delegating to
`workLoop` and clears it on every exit path: whatever `workLoop` produces
(normal return or exception, which propagates unchanged to the caller),
the final state has `isPerformingWork = false`.  The last conjunct shows a
concrete throwing callback: the exception escapes `flushWork` and the flag
is still released. -/
theorem flushWork_always_clears_isPerformingWork (fuel : Nat) (htr : Bool)
    (it : Nat) (s : Sched) :
    (flushWorkEnter s).isPerformingWork = true ∧
    (flushWork fuel htr it s).2.isPerformingWork = false ∧
    (flushWork fuel htr it s).1 = (workLoop fuel htr it (flushWorkEnter s)).1 ∧
    ((flushWork 5 true 6
        { initSched with clock := 6
                         taskQueue :=
                           [{ id := 0, priorityLevel := .normal, callback := some (.thrown 2)
                              startTime := 0, expirationTime := 3, sortIndex := 3 }] }).1 =
      Except.error () ∧
     (flushWork 5 true 6
        { initSched with clock := 6
                         taskQueue :=
                           [{ id := 0, priorityLevel := .normal, callback := some (.thrown 2)
                              startTime := 0, expirationTime := 3, sortIndex := 3 }] }).2.isPerformingWork =
      false) := by
  exact ⟨rfl, rfl, rfl, by rfl, by rfl⟩

/-- C5: if the ready root is not yet overdue (`ct < expirationTime`) and
the slice is exhausted (elapsed time since slice start at least
`frameInterval`), the loop stops before running the task and returns true
with the state untouched; conversely an overdue root
(`expirationTime ≤ ct`) is executed (logged in `executedIds`, its duration
added to the clock) even though the slice is exhausted — shown here for a
lone ready task, which is then popped and the loop reports no more work. -/
theorem workLoop_yield_check_spec :
    (∀ (fuel ct : Nat) (s : Sched) (t : Task) (rest : List Task),
        s.taskQueue = t :: rest → ct < t.expirationTime →
        frameInterval ≤ s.clock - s.sliceStart →
        workLoopGo fuel ct s = (Except.ok true, s)) ∧
    (∀ (fuel ct : Nat) (s : Sched) (t : Task) (d : Nat),
        s.taskQueue = [t] → s.timerQueue = [] →
        t.callback = some (.done d) → t.expirationTime ≤ ct →
        workLoopGo (fuel + 1) ct s =
          (Except.ok false,
            { s with taskQueue := []
                     clock := s.clock + d
                     executedIds := t.id :: s.executedIds })) := by
  constructor
  · intro fuel ct s t rest hq hexp hyield
    apply workLoopGo_break fuel ct s t rest hq
    simpa [shouldYieldToHost, hexp, frameInterval] using hyield
  · intro fuel ct s t d hq htm hcb hexp
    have hc : (decide (t.expirationTime > ct) && shouldYieldToHost s) = false := by
      simp [show ¬ (ct < t.expirationTime) from not_lt.mpr hexp]
    rw [workLoopGo_done fuel ct s t [] d hq hc hcb]
    have hA : Sched.advanceTimers
        { s with taskQueue := ([] : List Task)
                 executedIds := t.id :: s.executedIds
                 clock := s.clock + d } (s.clock + d) =
        { s with taskQueue := ([] : List Task)
                 executedIds := t.id :: s.executedIds
                 clock := s.clock + d } := by
      unfold Sched.advanceTimers
      simp [advanceTimersAux, htm]
    rw [hA, workLoopGo_nil fuel (s.clock + d) _ rfl]

/-- C5 witness: at clock 6 with slice start 0, a root expiring at 50 makes
the loop yield untouched, while a root that expired at 3 is still executed
(its 7 time units elapse, it is logged and popped) despite the exhausted
slice. -/
theorem workLoop_yield_check_spec_witness :
    workLoopGo 3 6
        { initSched with clock := 6
                         taskQueue := [⟨0, .normal, some (.done 7), 0, 50, 50⟩] } =
      (Except.ok true,
        { initSched with clock := 6
                         taskQueue := [⟨0, .normal, some (.done 7), 0, 50, 50⟩] }) ∧
    workLoopGo 3 6
        { initSched with clock := 6
                         taskQueue := [⟨0, .normal, some (.done 7), 0, 3, 3⟩] } =
      (Except.ok false,
        { initSched with clock := 13, taskQueue := [], executedIds := [0] }) := by
  constructor
  · exact workLoop_yield_check_spec.1 3 6 _ ⟨0, .normal, some (.done 7), 0, 50, 50⟩ []
      rfl (by decide) (by decide)
  · exact workLoop_yield_check_spec.2 2 6 _ ⟨0, .normal, some (.done 7), 0, 3, 3⟩ 7
      rfl rfl rfl (by decide)

/-- C6: when the executed callback returns a continuation, the continuation
is reinstalled as the same task's callback (same id, task not popped — it
is still a member of the ready queue afterwards), `advanceTimers` is run at
the refreshed current time, and the loop returns true immediately. -/
theorem workLoop_continuation_spec (fuel ct : Nat) (s : Sched) (t : Task)
    (rest : List Task) (d : Nat) (next : Cb)
    (hq : s.taskQueue = t :: rest)
    (hc : (decide (t.expirationTime > ct) && shouldYieldToHost s) = false)
    (hcb : t.callback = some (.cont d next)) :
    workLoopGo (fuel + 1) ct s =
      (Except.ok true,
        Sched.advanceTimers
          { s with taskQueue := { t with callback := some next } :: rest
                   executedIds := t.id :: s.executedIds
                   clock := s.clock + d }
          (s.clock + d)) ∧
    { t with callback := some next } ∈ (workLoopGo (fuel + 1) ct s).2.taskQueue := by
  refine ⟨workLoopGo_cont fuel ct s t rest d next hq hc hcb, ?_⟩
  rw [workLoopGo_cont fuel ct s t rest d next hq hc hcb]
  exact advanceTimersAux_fst_mem _ _ _ _ (List.mem_cons_self ..)

/-- C6 witness: a two-step task (2 time units, then a 1-unit continuation)
yields after its first invocation with the continuation reinstalled on the
same task, which remains in the ready queue. -/
theorem workLoop_continuation_spec_witness :
    workLoopGo 4 0
        { initSched with taskQueue := [⟨0, .normal, some (.cont 2 (.done 1)), 0, 50, 50⟩] } =
      (Except.ok true,
        Sched.advanceTimers
          { initSched with taskQueue := [⟨0, .normal, some (.done 1), 0, 50, 50⟩]
                           executedIds := [0]
                           clock := 2 } 2) ∧
    (⟨0, .normal, some (.done 1), 0, 50, 50⟩ : Task) ∈
      (workLoopGo 4 0
        { initSched with
            taskQueue := [⟨0, .normal, some (.cont 2 (.done 1)), 0, 50, 50⟩] }).2.taskQueue :=
  workLoop_continuation_spec 3 0 _ ⟨0, .normal, some (.cont 2 (.done 1)), 0, 50, 50⟩ [] 2
    (.done 1) rfl (by decide) rfl

/-- C7: `advanceTimers` repeatedly inspects the delayed queue's root: a
root with an empty callback slot is popped and discarded; a live root whose
`startTime` has been reached is popped, rekeyed to its `expirationTime` and
pushed into the ready queue; and the scan stops at the first live root
whose `startTime` is still in the future, leaving the state (and hence the
rest of the delayed queue) unchanged. -/
theorem advanceTimers_root_cases (s : Sched) (ct : Nat) (top : Task) (rest : List Task)
    (h : s.timerQueue = top :: rest) :
    (top.callback = none →
      s.advanceTimers ct =
        Sched.advanceTimers { s with timerQueue := pop s.timerQueue } ct) ∧
    (∀ cb, top.callback = some cb → top.startTime ≤ ct →
      s.advanceTimers ct =
        Sched.advanceTimers
          { s with timerQueue := pop s.timerQueue
                   taskQueue := push s.taskQueue { top with sortIndex := top.expirationTime } }
          ct) ∧
    (∀ cb, top.callback = some cb → ct < top.startTime →
      s.advanceTimers ct = s) := by
  refine ⟨fun hcb => ?_, fun cb hcb hst => ?_, fun cb hcb hst => ?_⟩
  · unfold Sched.advanceTimers
    simp [advanceTimersAux, h, hcb, pop]
  · unfold Sched.advanceTimers
    simp [advanceTimersAux, h, hcb, hst, pop]
  · unfold Sched.advanceTimers
    simp only [advanceTimersAux, h, hcb, if_neg (not_le.mpr hst)]
    rw [← h]

/-- C7 witness: with delayed queue `[cancelled@5, live@7, live@9]` (ids 0,
1, 2): at time 0 the cancelled root is popped and discarded; then at time 8
the live root that has started is promoted into the ready queue keyed by
its expiration time; and at time 3 a live root still in the future stops
the scan with the state unchanged. -/
theorem advanceTimers_root_cases_witness :
    Sched.advanceTimers
        { initSched with
            timerQueue := [⟨0, .normal, none, 5, 10, 5⟩, ⟨1, .normal, some (.done 1), 7, 12, 7⟩] } 0 =
      Sched.advanceTimers
        { initSched with timerQueue := [⟨1, .normal, some (.done 1), 7, 12, 7⟩] } 0 ∧
    Sched.advanceTimers
        { initSched with timerQueue := [⟨1, .normal, some (.done 1), 7, 12, 7⟩] } 8 =
      Sched.advanceTimers
        { initSched with timerQueue := ([] : List Task)
                         taskQueue := [⟨1, .normal, some (.done 1), 7, 12, 12⟩] } 8 ∧
    Sched.advanceTimers
        { initSched with timerQueue := [⟨1, .normal, some (.done 1), 7, 12, 7⟩] } 3 =
      { initSched with timerQueue := [⟨1, .normal, some (.done 1), 7, 12, 7⟩] } := by
  refine ⟨?_, ?_, ?_⟩
  · exact (advanceTimers_root_cases _ 0 ⟨0, .normal, none, 5, 10, 5⟩
      [⟨1, .normal, some (.done 1), 7, 12, 7⟩] rfl).1 rfl
  · exact (advanceTimers_root_cases _ 8 ⟨1, .normal, some (.done 1), 7, 12, 7⟩ [] rfl).2.1
      (.done 1) rfl (by decide)
  · exact (advanceTimers_root_cases _ 3 ⟨1, .normal, some (.done 1), 7, 12, 7⟩ [] rfl).2.2
      (.done 1) rfl (by decide)

/-- C8: in any state satisfying the ready-queue invariant (in particular
the pristine initial state), after any sequence of external events a task
whose `startTime` the clock has not yet reached is not a member of the
ready queue: a delayed submission goes to the timer queue, and the only
path into the ready queue is promotion by `advanceTimers`, which requires
`startTime ≤ currentTime`. -/
theorem delayed_task_not_ready_before_startTime (s s' : Sched) (t : Task)
    (hinv : InvReady s) (hsteps : Steps s s') (hlt : s'.clock < t.startTime) :
    t ∉ s'.taskQueue := by
  intro hmem
  have hle := ((steps_pres hsteps).2.1 hinv) t hmem
  omega

/-- C8 witness: scheduling a task with delay 10 from the pristine state
leaves it out of the ready queue while the clock (still 0) has not reached
its start time 10. -/
theorem delayed_task_not_ready_before_startTime_witness :
    (⟨0, .normal, some (.done 1), 10, 5010, 10⟩ : Task) ∉
      (scheduleCallback initSched .normal (.done 1) 10).1.taskQueue :=
  delayed_task_not_ready_before_startTime initSched
    (scheduleCallback initSched .normal (.done 1) 10).1
    ⟨0, .normal, some (.done 1), 10, 5010, 10⟩
    (fun x hx => absurd hx (by simp [initSched]))
    (Steps.tail (Steps.refl _) (Step.schedule initSched .normal (.done 1) 10))
    (by decide)

/-- C9: `cancelCallback` clears the task's callback slot wherever the task
lives; before any execution of the task, cancellation guarantees (through
any sequence of external events) that the callback body is never invoked —
the task is discarded as a tombstone when traversal reaches it; and
cancellation is idempotent, and on an already-cancelled or already-executed
(hence absent or cleared) task it is a no-op that changes no scheduler
state. -/
theorem cancelCallback_spec :
    (∀ (s : Sched) (tid : Nat),
        cancelCallback (cancelCallback s tid) tid = cancelCallback s tid) ∧
    (∀ (s : Sched) (tid : Nat), CancelledAt (cancelCallback s tid) tid) ∧
    (∀ (s : Sched) (tid : Nat), CancelledAt s tid → cancelCallback s tid = s) ∧
    (∀ (s s' : Sched) (tid : Nat), tid < s.taskIdCounter → CancelledAt s tid →
        tid ∉ s.executedIds → Steps s s' → tid ∉ s'.executedIds) := by
  have hclear : ∀ (tid : Nat) (l : List Task) (x : Task),
      x ∈ l.map (fun y => if y.id = tid then { y with callback := none } else y) →
      x.id = tid → x.callback = none := by
    intro tid l x hx hid
    simp only [List.mem_map] at hx
    obtain ⟨y, hy, hxy⟩ := hx
    subst hxy
    split
    · rfl
    · simp_all
  have hmapid : ∀ (tid : Nat) (l : List Task), (∀ x ∈ l, x.id = tid → x.callback = none) →
      (l.map fun x => if x.id = tid then { x with callback := none } else x) = l := by
    intro tid l hl
    have hcongr : ∀ x ∈ l,
        (if x.id = tid then { x with callback := none } else x) = id x := by
      intro x hx
      by_cases hid : x.id = tid
      · have hcb := hl x hx hid
        rw [if_pos hid]
        show ({ x with callback := none } : Task) = x
        cases x
        simp_all
      · rw [if_neg hid]
        rfl
    rw [List.map_congr_left hcongr, List.map_id]
  refine ⟨fun s tid => ?_,
    fun s tid => ⟨fun x hx hid => hclear tid s.taskQueue x hx hid,
      fun x hx hid => hclear tid s.timerQueue x hx hid⟩,
    fun s tid hc => ?_,
    fun s s' tid htid hc he hsteps => ((steps_pres hsteps).2.2 tid htid hc he).2⟩
  · show cancelCallback (cancelCallback s tid) tid = cancelCallback s tid
    unfold cancelCallback
    dsimp only
    rw [hmapid tid _ (fun x hx hid => hclear tid s.taskQueue x hx hid),
        hmapid tid _ (fun x hx hid => hclear tid s.timerQueue x hx hid)]
  · unfold cancelCallback
    rw [hmapid tid s.taskQueue hc.1, hmapid tid s.timerQueue hc.2]

/-- C9 witness: cancelling on the pristine state is idempotent; cancelling
an already-cancelled task (id 0, tombstone in the ready queue) changes
nothing; and after a turn fires on that state the tombstone is discarded
without its callback ever being invoked. -/
theorem cancelCallback_spec_witness :
    cancelCallback (cancelCallback initSched 0) 0 = cancelCallback initSched 0 ∧
    cancelCallback
        { initSched with taskIdCounter := 1
                         taskQueue := [⟨0, .normal, none, 0, 5000, 5000⟩]
                         scheduledHostCallback := true } 0 =
      { initSched with taskIdCounter := 1
                       taskQueue := [⟨0, .normal, none, 0, 5000, 5000⟩]
                       scheduledHostCallback := true } ∧
    0 ∉ (performWorkUntilDealine 5
        { initSched with taskIdCounter := 1
                         taskQueue := [⟨0, .normal, none, 0, 5000, 5000⟩]
                         scheduledHostCallback := true }).2.executedIds := by
  refine ⟨cancelCallback_spec.1 initSched 0, cancelCallback_spec.2.2.1 _ 0 ?_,
    cancelCallback_spec.2.2.2 _ _ 0 (by decide) ?_ (by simp [initSched])
      (Steps.tail (Steps.refl _) (Step.fireMessage _ 5))⟩ <;>
  · constructor
    · intro x hx hid
      simp only [List.mem_singleton] at hx
      subst hx
      rfl
    · intro x hx hid
      exact absurd hx (List.not_mem_nil x)

end MiniReact
